import Mathlib

/-!
Verification of the optical-flow / keypoint-tracking module `motion.py`
(Lucas-Kanade flow, iterative and pyramidal refinement, multi-frame
tracking, patch error metric, bounding-box IoU).

The embedding models numpy's real-valued arrays with exact rationals:
a frame is a height, a width and a total pixel function on integer
indices.  Python-level behaviours that matter to the claims are made
explicit:
  * a raised exception (AssertionError, numpy.linalg.LinAlgError,
    numpy AxisError) aborts the whole call; fallible functions
    therefore return an `Option`, with `none` for "the call raised";
  * `int(round(x))` is Python 3 / numpy rounding, i.e. round half to
    even (`pyround` below);
  * IEEE NaN, produced by normalizing a zero-variance patch, compares
    false against every threshold; the tracker's drop test models this
    by its zero-variance branch.
Out-of-bounds window reads (which Python would silently wrap or clip)
are not modelled: the pixel functions are total on ℤ, which agrees
with numpy on every in-bounds access, and the claims only concern
in-bounds executions (the spec makes out-of-bounds windows a caller
contract violation).
-/

attribute [local semireducible] Rat.mul Rat.add Rat.sub Rat.inv Rat.ofScientific

/-- A grayscale frame: a `h × w` array of brightness samples, as a total
function on integer row/column indices (rows first, matching numpy). -/
structure Frame where
  h : ℕ
  w : ℕ
  pix : ℤ → ℤ → ℚ

/-- Default frame used only as a `getD` fallback. -/
def emptyFrame : Frame := ⟨0, 0, fun _ _ => 0⟩

/-- Python 3 / numpy `int(round(x))`: round to nearest integer, ties to
the even integer (banker's rounding). -/
def pyround (q : ℚ) : ℤ :=
  let f := ⌊q⌋
  if q - f < 1/2 then f
  else if 1/2 < q - f then f + 1
  else if f % 2 = 0 then f else f + 1

/-- `np.gradient` along axis 0 (rows): central differences in the
interior, one-sided differences at the first and last row. -/
def gradRow (f : Frame) : ℤ → ℤ → ℚ := fun i j =>
  if i = 0 then f.pix 1 j - f.pix 0 j
  else if i = (f.h : ℤ) - 1 then f.pix i j - f.pix (i - 1) j
  else (f.pix (i + 1) j - f.pix (i - 1) j) / 2

/-- `np.gradient` along axis 1 (columns): central differences in the
interior, one-sided differences at the first and last column. -/
def gradCol (f : Frame) : ℤ → ℤ → ℚ := fun i j =>
  if j = 0 then f.pix i 1 - f.pix i 0
  else if j = (f.w : ℤ) - 1 then f.pix i j - f.pix i (j - 1)
  else (f.pix i (j + 1) - f.pix i (j - 1)) / 2

/-- The flattened `(2w+1) × (2w+1)` window of a 2-D field centered at
`(y, x)`: the slice `[y-w : y+w+1, x-w : x+w+1]` reshaped row-major. -/
def window (f : ℤ → ℤ → ℚ) (y x : ℤ) (w : ℕ) : List ℚ :=
  ((List.range (2 * w + 1)).map fun dy =>
    (List.range (2 * w + 1)).map fun dx =>
      f (y - w + dy) (x - w + dx)).foldr (· ++ ·) []

/-- Sum of elementwise products of two equal-length flattened windows
(`np.sum(u * v)`). -/
def dotL (u v : List ℚ) : ℚ := (List.zipWith (· * ·) u v).sum

/-- `np.linalg.inv` on the 2×2 matrix `[[a, b], [c, d]]`: raises
LinAlgError (modelled as `none`) when the matrix is singular, otherwise
returns the inverse, row-major as `((a', b'), (c', d'))`. -/
def inv2 (a b c d : ℚ) : Option ((ℚ × ℚ) × (ℚ × ℚ)) :=
  let det := a * d - b * c
  if det = 0 then none
  else some ((d / det, -b / det), (-c / det, a / det))

/-- 2×2 matrix times column vector. -/
def mat2Mul (m : (ℚ × ℚ) × (ℚ × ℚ)) (v : ℚ × ℚ) : ℚ × ℚ :=
  (m.1.1 * v.1 + m.1.2 * v.2, m.2.1 * v.1 + m.2.2 * v.2)

/-- The Python per-keypoint loop with exception propagation: the results
are accumulated in order, and the first raising element (a `none`)
aborts the whole call. -/
def optMap (f : α → Option β) : List α → Option (List β)
  | [] => some []
  | a :: l =>
    match f a with
    | none => none
    | some b => (optMap f l).map (b :: ·)

/-- `lucas_kanade(img1, img2, keypoints, window_size)`: single-level
Lucas-Kanade.  Asserts `window_size` odd (AssertionError otherwise,
modelled as `none`).  For each keypoint `(y, x)` it rounds to the
nearest pixel, extracts the `Ix`, `Iy`, `It` windows of the reference
gradients and the temporal difference `It = img2 - img1`, forms
`A = [Ix | Iy]`, and solves `(AᵀA)⁻¹ (-Aᵀ It)`.  The solution vector
`(vx, vy)` is appended to the output exactly as the source appends it:
first component `vx` (the column displacement). -/
def lucas_kanade (img1 img2 : Frame) (keypoints : List (ℚ × ℚ))
    (window_size : ℕ) : Option (List (ℚ × ℚ)) :=
  if window_size % 2 = 1 then
    optMap (fun p =>
      let wr := window_size / 2
      let y := pyround p.1
      let x := pyround p.2
      let Iy_win := window (gradRow img1) y x wr
      let Ix_win := window (gradCol img1) y x wr
      let It_win := window (fun i j => img2.pix i j - img1.pix i j) y x wr
      match inv2 (dotL Ix_win Ix_win) (dotL Ix_win Iy_win)
          (dotL Ix_win Iy_win) (dotL Iy_win Iy_win) with
      | none => none
      | some invATA =>
        some (mat2Mul invATA (-(dotL Ix_win It_win), -(dotL Iy_win It_win))))
      keypoints
  else none

/-- One update of the inner loop of `iterative_lucas_kanade` for one
keypoint: from the running flow estimate `v = (vx, vy)`, sample the
target-frame window `B` at the rounded refined position
`(round (y + gy + vy), round (x + gx + vx))`, form the residual window
`Ik = A - B`, the vector `bk = (Σ Ik·Ax, Σ Ik·Ay)`, and add
`G⁻¹ · bk` to `v`. -/
def lkStep (img2 : Frame) (wr : ℕ) (A Ax Ay : List ℚ)
    (Ginv : (ℚ × ℚ) × (ℚ × ℚ)) (y x gy gx : ℚ) (v : ℚ × ℚ) : ℚ × ℚ :=
  let y2 := pyround (y + gy + v.2)
  let x2 := pyround (x + gx + v.1)
  let B := window img2.pix y2 x2 wr
  let Ik := List.zipWith (· - ·) A B
  let vk := mat2Mul Ginv (dotL Ik Ax, dotL Ik Ay)
  (v.1 + vk.1, v.2 + vk.2)

/-- The body of the keypoint loop of `iterative_lucas_kanade` for one
row `((y, x), (gy, gx))` of `np.hstack((keypoints, g))`: extract the
reference window `A` and gradient windows `Ax`, `Ay` at the rounded
keypoint, invert `G` (LinAlgError, i.e. `none`, if singular), run
`num_iters` updates of the flow estimate from `(0, 0)`, and emit the
result as `[vy, vx]`. -/
def lkOne (img1 img2 : Frame) (window_size num_iters : ℕ)
    (r : (ℚ × ℚ) × (ℚ × ℚ)) : Option (ℚ × ℚ) :=
  let wr := window_size / 2
  let y1 := pyround r.1.1
  let x1 := pyround r.1.2
  let A := window img1.pix y1 x1 wr
  let Ax := window (gradCol img1) y1 x1 wr
  let Ay := window (gradRow img1) y1 x1 wr
  match inv2 (dotL Ax Ax) (dotL Ax Ay) (dotL Ax Ay) (dotL Ay Ay) with
  | none => none
  | some Ginv =>
    let v := (lkStep img2 wr A Ax Ay Ginv r.1.1 r.1.2 r.2.1 r.2.2)^[num_iters] (0, 0)
    some (v.2, v.1)

/-- `iterative_lucas_kanade(img1, img2, keypoints, window_size,
num_iters, g)`: asserts `window_size` odd, then runs the per-keypoint
iterative refinement over the rows of `np.hstack((keypoints, g))`.  A
singular `G` raises LinAlgError, aborting the whole call (`none`). -/
def iterative_lucas_kanade (img1 img2 : Frame) (keypoints : List (ℚ × ℚ))
    (window_size num_iters : ℕ) (g : List (ℚ × ℚ)) : Option (List (ℚ × ℚ)) :=
  if window_size % 2 = 1 then
    optMap (lkOne img1 img2 window_size num_iters) (List.zip keypoints g)
  else none

/-- Pointwise sum of a keypoint/flow pair (`kp_curr + flow_vectors` rows). -/
def addPt (p v : ℚ × ℚ) : ℚ × ℚ := (p.1 + v.1, p.2 + v.2)

/-- Scalar times point (`scale * g` rows). -/
def scalePt (s : ℚ) (p : ℚ × ℚ) : ℚ × ℚ := (s * p.1, s * p.2)

/-- Point divided by a scalar (`keypoints / scale**L` rows). -/
def divPt (c : ℚ) (p : ℚ × ℚ) : ℚ × ℚ := (p.1 / c, p.2 / c)

/-- Elementwise sum of two (N, 2) arrays. -/
def addL (u v : List (ℚ × ℚ)) : List (ℚ × ℚ) := List.zipWith addPt u v

/-- Scalar times an (N, 2) array. -/
def smulL (s : ℚ) (u : List (ℚ × ℚ)) : List (ℚ × ℚ) := u.map (scalePt s)

/-- `np.zeros(keypoints.shape)`. -/
def zerosL (n : ℕ) : List (ℚ × ℚ) := List.replicate n (0, 0)

/-- The level loop of `pyramid_lucas_kanade`, run over the list of
levels `[level, level-1, ..., 0]`, threading the state `(g, d)` exactly
as the source's loop threads its variables: at each level `L`, call the
iterative refiner on the level-`L` images with the keypoints divided by
`scale^L` and the current guess `g`; if `L ≠ 0`, replace `g` by
`scale * (g + d)`.  An exception inside the refiner aborts the loop. -/
def pyrLoop (pyr : Frame → ℕ → Frame) (img1 img2 : Frame)
    (kps : List (ℚ × ℚ)) (ws K : ℕ) (s : ℚ) :
    List ℕ → List (ℚ × ℚ) × List (ℚ × ℚ) → Option (List (ℚ × ℚ) × List (ℚ × ℚ))
  | [], gd => some gd
  | L :: Ls, gd =>
    match iterative_lucas_kanade (pyr img1 L) (pyr img2 L)
        (kps.map (divPt (s ^ L))) ws K gd.1 with
    | none => none
    | some d => pyrLoop pyr img1 img2 kps ws K s Ls
        (if L = 0 then gd.1 else smulL s (addL gd.1 d), d)

/-- `pyramid_lucas_kanade(img1, img2, keypoints, window_size, num_iters,
level, scale)`.  The Gaussian pyramid builder (skimage's
`pyramid_gaussian`, an external collaborator of this module) is the
parameter `pyr`: `pyr img L` is level `L` of the pyramid of `img`.  The
guess `g` is initialized to zeros, the loop runs from `level` down to
`0`, and the returned flow is `g + d` for the final `g` and `d`. -/
def pyramid_lucas_kanade (pyr : Frame → ℕ → Frame) (img1 img2 : Frame)
    (keypoints : List (ℚ × ℚ)) (window_size num_iters level : ℕ)
    (scale : ℚ) : Option (List (ℚ × ℚ)) :=
  (pyrLoop pyr img1 img2 keypoints window_size num_iters scale
      ((List.range (level + 1)).reverse)
      (zerosL keypoints.length, zerosL keypoints.length)).map
    (fun gd => addL gd.1 gd.2)

/-- `np.mean` of a flattened patch. -/
def listMean (l : List ℚ) : ℚ := l.sum / l.length

/-- `np.std(l) ** 2`: the population variance, mean of squared
deviations from the mean.  `np.std l` itself is `√(listVar l)`. -/
def listVar (l : List ℚ) : ℚ :=
  listMean (l.map fun a => (a - listMean l) * (a - listMean l))

/-- `compute_error(patch1, patch2)` in exact real arithmetic: normalize
each patch to zero mean and unit standard deviation
(`(p - mean p) / std p` with `std p = √(listVar p)`), then take the
mean squared difference.  When a patch has zero variance the Python
code divides `0` by `0.0` and the result is IEEE NaN; that case is
handled at the use site (`errDrops`), never by this value. -/
noncomputable def compute_error (patch1 patch2 : List ℚ) : ℝ :=
  ((List.zipWith (fun a b =>
      (((a : ℝ) - (listMean patch1 : ℚ)) / Real.sqrt ((listVar patch1 : ℚ) : ℝ) -
        (((b : ℝ) - (listMean patch2 : ℚ)) / Real.sqrt ((listVar patch2 : ℚ) : ℝ))) ^ 2)
    patch1 patch2).sum) / (patch1.length : ℝ)

/-- The tracker's drop test `error > error_thresh`.  If either patch is
constant (`np.std` is exactly 0), the normalization is `0/0`, the error
is IEEE NaN, and `NaN > error_thresh` is False — so the test is false
and the keypoint is NOT dropped; that branch is modelled explicitly.
Otherwise the test is the exact real comparison. -/
noncomputable def errDrops (p1 p2 : List ℚ) (t : ℚ) : Bool :=
  if listVar p1 = 0 ∨ listVar p2 = 0 then false
  else @decide ((t : ℝ) < compute_error p1 p2) (Classical.propDecidable _)

/-- The 3×3 patch of a frame centered at `(y, x)` (patch_size = 3,
half-width `w = 1`), flattened. -/
def patchAt (f : Frame) (y x : ℤ) : List ℚ := window f.pix y x 1

/-- The survival decision of `track_features` for one row
`(yi, xi, yj, xj)` of `np.hstack((kp_curr, kp_next))`: round all four
coordinates; drop (`none`) if the rounded next position is within
`exclude_border` of a frame edge of `J`; otherwise drop if the patch
error between the 3×3 patches at the rounded current and next positions
exceeds the threshold; otherwise keep the rounded `[yj, xj]`. -/
noncomputable def rowKeep (I J : Frame) (error_thresh : ℚ)
    (exclude_border : ℤ) (r : (ℚ × ℚ) × (ℚ × ℚ)) : Option (ℚ × ℚ) :=
  let yi := pyround r.1.1
  let xi := pyround r.1.2
  let yj := pyround r.2.1
  let xj := pyround r.2.2
  if yj > (J.h : ℤ) - exclude_border - 1 ∨ yj < exclude_border ∨
      xj > (J.w : ℤ) - exclude_border - 1 ∨ xj < exclude_border then none
  else if errDrops (patchAt I yi xi) (patchAt J yj xj) error_thresh then none
  else some ((yj : ℚ), (xj : ℚ))

/-- One frame transition of `track_features`: run the pluggable optical
flow function (its exception aborts the call), form
`kp_next = kp_curr + flow_vectors`, and keep the surviving rows in
order. -/
noncomputable def trackStep (I J : Frame) (error_thresh : ℚ)
    (exclude_border : ℤ)
    (optflow : Frame → Frame → List (ℚ × ℚ) → Option (List (ℚ × ℚ)))
    (kp_curr : List (ℚ × ℚ)) : Option (List (ℚ × ℚ)) :=
  match optflow I J kp_curr with
  | none => none
  | some flow =>
    some ((List.zip kp_curr (addL kp_curr flow)).filterMap
      (rowKeep I J error_thresh exclude_border))

/-- The frame loop of `track_features`: starting from the live keypoint
set, walk the consecutive frame pairs, recording the live set at every
frame. -/
noncomputable def trackGo (error_thresh : ℚ) (exclude_border : ℤ)
    (optflow : Frame → Frame → List (ℚ × ℚ) → Option (List (ℚ × ℚ))) :
    List (ℚ × ℚ) → List Frame → Option (List (List (ℚ × ℚ)))
  | kp, I :: J :: rest =>
    match trackStep I J error_thresh exclude_border optflow kp with
    | none => none
    | some kp2 =>
      match trackGo error_thresh exclude_border optflow kp2 (J :: rest) with
      | none => none
      | some ts => some (kp :: ts)
  | kp, _ => some [kp]

/-- `track_features(frames, keypoints, error_thresh, optflow_fn,
exclude_border)`: the multi-frame tracker.  `trajs[0]` is the input
keypoint set; every later entry is the filtered rounded next-position
set of its predecessor. -/
noncomputable def track_features (frames : List Frame)
    (keypoints : List (ℚ × ℚ)) (error_thresh : ℚ)
    (optflow_fn : Frame → Frame → List (ℚ × ℚ) → Option (List (ℚ × ℚ)))
    (exclude_border : ℤ) : Option (List (List (ℚ × ℚ))) :=
  trackGo error_thresh exclude_border optflow_fn keypoints frames

/-- `np.amax(v, 0)` as the source calls it on the 0-dimensional scalar
`xB - xA`: the second positional argument of `np.amax` is `axis`, not a
second operand, and axis 0 is out of bounds for a 0-dimensional array,
so numpy (≥ 1.13) raises AxisError — modelled as `none`.  The call does
NOT clamp its operand at 0. -/
def npAmaxAxis0 (_v : ℚ) : Option ℚ := none

/-- `IoU(bbox1, bbox2)` as written in the source: boxes are
`(x, y, w, h)` with `(x, y)` the top-left corner; the intersection
corners are formed with `max`/`min`, and the width/height are passed
through `np.amax(·, 0)` (see `npAmaxAxis0`), whose AxisError aborts the
call before any score is produced. -/
def IoU (bbox1 bbox2 : ℚ × ℚ × ℚ × ℚ) : Option ℚ :=
  match bbox1, bbox2 with
  | (x1, y1, w1, h1), (x2, y2, w2, h2) =>
    let xA := max x1 x2
    let yA := max y1 y2
    let xB := min (x1 + w1) (x2 + w2)
    let yB := min (y1 + h1) (y2 + h2)
    match npAmaxAxis0 (xB - xA), npAmaxAxis0 (yB - yA) with
    | some xAB, some yAB =>
      let intersection := xAB * yAB
      let union := w1 * h1 + w2 * h2 - intersection
      some (intersection / union)
    | _, _ => none

/-- The clamped intersection-over-union the spec describes (and the
source's comments intend): intersection width and height clamped to be
non-negative before multiplying, score = intersection / union. -/
def IoU_clamped (bbox1 bbox2 : ℚ × ℚ × ℚ × ℚ) : ℚ :=
  match bbox1, bbox2 with
  | (x1, y1, w1, h1), (x2, y2, w2, h2) =>
    let xAB := max (min (x1 + w1) (x2 + w2) - max x1 x2) 0
    let yAB := max (min (y1 + h1) (y2 + h2) - max y1 y2) 0
    let intersection := xAB * yAB
    let union := w1 * h1 + w2 * h2 - intersection
    intersection / union

/-- The 2×2 matrix `G = [[ΣAx², ΣAxAy], [ΣAxAy, ΣAy²]]` accumulated
from the gradient windows of the reference frame around the rounded
keypoint (the matrix the Iterative Refiner inverts once). -/
def lkG (img1 : Frame) (window_size : ℕ) (kp : ℚ × ℚ) : (ℚ × ℚ) × (ℚ × ℚ) :=
  let wr := window_size / 2
  let Ax := window (gradCol img1) (pyround kp.1) (pyround kp.2) wr
  let Ay := window (gradRow img1) (pyround kp.1) (pyround kp.2) wr
  ((dotL Ax Ax, dotL Ax Ay), (dotL Ax Ay, dotL Ay Ay))

/-- Determinant of `G`; `G` is singular exactly when this is zero. -/
def lkGdet (img1 : Frame) (window_size : ℕ) (kp : ℚ × ℚ) : ℚ :=
  (lkG img1 window_size kp).1.1 * (lkG img1 window_size kp).2.2 -
    (lkG img1 window_size kp).1.2 * (lkG img1 window_size kp).2.1

/-- The iteration of claim C8, stated as the spec states it: `v₀ = 0`
and `v_{k+1} = v_k + G⁻¹·b(v_k)`, where `b(v)` samples the target-frame
window `B` at `rounded(keypoint + g + v)`, forms `Ik = A - B` and takes
`b = (Σ Ik·Ax, Σ Ik·Ay)`.  `G⁻¹` is an argument: it is computed once,
outside the iteration.  `v` is carried in solver order `(vx, vy)`. -/
def lkClaimIter (img2 : Frame) (wr : ℕ) (A Ax Ay : List ℚ)
    (Ginv : (ℚ × ℚ) × (ℚ × ℚ)) (kp gv : ℚ × ℚ) : ℕ → ℚ × ℚ
  | 0 => (0, 0)
  | k + 1 =>
    let v := lkClaimIter img2 wr A Ax Ay Ginv kp gv k
    let B := window img2.pix (pyround (kp.1 + gv.1 + v.2))
      (pyround (kp.2 + gv.2 + v.1)) wr
    let Ik := List.zipWith (· - ·) A B
    let b := (dotL Ik Ax, dotL Ik Ay)
    addPt v (mat2Mul Ginv b)

/-- The per-keypoint refinement of claim C8: the reference window `A`,
its gradient windows, `G` and `G⁻¹` are computed once from the
reference frame around the rounded keypoint; the iteration runs `K`
times; the final `v` is emitted as `(Δy, Δx)`. -/
def lkClaimOne (img1 img2 : Frame) (window_size num_iters : ℕ)
    (r : (ℚ × ℚ) × (ℚ × ℚ)) : ℚ × ℚ :=
  let wr := window_size / 2
  let A := window img1.pix (pyround r.1.1) (pyround r.1.2) wr
  let Ax := window (gradCol img1) (pyround r.1.1) (pyround r.1.2) wr
  let Ay := window (gradRow img1) (pyround r.1.1) (pyround r.1.2) wr
  let G := lkG img1 window_size r.1
  let det := lkGdet img1 window_size r.1
  let Ginv := ((G.2.2 / det, -G.1.2 / det), (-G.2.1 / det, G.1.1 / det))
  let v := lkClaimIter img2 wr A Ax Ay Ginv r.1 r.2 num_iters
  (v.2, v.1)

/-- The level recursion of claim C7, stated as the spec states it: at
level `ℓ` the keypoints are divided by `scale^ℓ` and the Iterative
Refiner runs with guess `g`, producing `d`; for `ℓ > 0` the next guess
is `scale·(g + d)`; at `ℓ = 0` the result is `g + d`. -/
def pyramidClaimRec (pyr : Frame → ℕ → Frame) (img1 img2 : Frame)
    (kps : List (ℚ × ℚ)) (ws K : ℕ) (s : ℚ) :
    ℕ → List (ℚ × ℚ) → Option (List (ℚ × ℚ))
  | 0, g =>
    (iterative_lucas_kanade (pyr img1 0) (pyr img2 0)
        (kps.map (divPt (s ^ 0))) ws K g).map (addL g)
  | L + 1, g =>
    match iterative_lucas_kanade (pyr img1 (L + 1)) (pyr img2 (L + 1))
        (kps.map (divPt (s ^ (L + 1)))) ws K g with
    | none => none
    | some d => pyramidClaimRec pyr img1 img2 kps ws K s L (smulL s (addL g d))

/-- Both coordinates of a point rounded to the nearest integer
(Python 3 rounding), as rationals. -/
def roundPt (p : ℚ × ℚ) : ℚ × ℚ := ((pyround p.1 : ℤ), (pyround p.2 : ℤ))

/-- The rounded candidate next positions of a keypoint set for one
frame transition of the tracker: `round(kp + flow)`, per keypoint in
input order (empty if the flow call raised).  Every entry the tracker
keeps for the next frame is drawn from this list, in order. -/
def candidates
    (optflow : Frame → Frame → List (ℚ × ℚ) → Option (List (ℚ × ℚ)))
    (I J : Frame) (kp : List (ℚ × ℚ)) : List (ℚ × ℚ) :=
  match optflow I J kp with
  | none => []
  | some flow => List.zipWith (fun p v => roundPt (addPt p v)) kp flow

/-- 5×5 test frame `img1(i, j) = i² + 3·j²`. -/
def frameC1a : Frame := ⟨5, 5, fun i j => ((i * i + 3 * (j * j) : ℤ) : ℚ)⟩

/-- 5×5 test frame `img2(i, j) = i² + 3·j² + i` (so `It = i`). -/
def frameC1b : Frame := ⟨5, 5, fun i j => ((i * i + 3 * (j * j) + i : ℤ) : ℚ)⟩

/-- 5×5 test frame `img2(i, j) = i² + 3·j² + i/10`, a small brightness
perturbation of `frameC1a`. -/
def frameC8b : Frame :=
  ⟨5, 5, fun i j => ((i * i + 3 * (j * j) : ℤ) : ℚ) + (i : ℚ) / 10⟩

/-- 30×30 test frame that is textured (`i² + 3·j²`) for `i < 20` and
flat (zero) for `i ≥ 20`: around `(2, 2)` the matrix `G` is invertible,
while around `(25, 25)` every gradient vanishes and `G = 0`. -/
def frameC4 : Frame :=
  ⟨30, 30, fun i j => if i ≥ 20 then 0 else ((i * i + 3 * (j * j) : ℤ) : ℚ)⟩

/-- 7×7 constant test frame: every 3×3 patch has zero variance, and
every Lucas-Kanade structure matrix is singular. -/
def constFrame : Frame := ⟨7, 7, fun _ _ => 0⟩

/-- A trivial pluggable optical-flow function for tracker tests: zero
flow for every keypoint. -/
def zeroFlow : Frame → Frame → List (ℚ × ℚ) → Option (List (ℚ × ℚ)) :=
  fun _ _ kps => some (kps.map fun _ => (0, 0))

/-- The identity pyramid builder: every level is the original image — a
legitimate instance of the external pyramid contract when only level 0
is consumed. -/
def pyrId : Frame → ℕ → Frame := fun img _ => img

/-! ### Helper lemmas -/

theorem optMap_eq_some_map {α β : Type} (f : α → Option β) (g : α → β) :
    ∀ l : List α, (∀ a ∈ l, f a = some (g a)) → optMap f l = some (l.map g) := by
  intro l
  induction l with
  | nil => intro _; rfl
  | cons a l ih =>
    intro h
    simp only [optMap, h a (List.mem_cons_self a l),
      ih fun b hb => h b (List.mem_cons_of_mem a hb), List.map, Option.map_some']

theorem optMap_length {α β : Type} (f : α → Option β) :
    ∀ l : List α, ∀ l' : List β, optMap f l = some l' → l'.length = l.length := by
  intro l
  induction l with
  | nil =>
    intro l' h
    simp only [optMap, Option.some.injEq] at h
    simp [← h]
  | cons a l ih =>
    intro l' h
    simp only [optMap] at h
    cases hfa : f a with
    | none => rw [hfa] at h; exact absurd h (by simp)
    | some b =>
      rw [hfa] at h
      cases hrest : optMap f l with
      | none => rw [hrest] at h; exact absurd h (by simp)
      | some bs =>
        rw [hrest] at h
        simp only [Option.map_some', Option.some.injEq] at h
        simp [← h, ih bs hrest]

theorem optMap_eq_none {α β : Type} (f : α → Option β) :
    ∀ l : List α, ∀ a ∈ l, f a = none → optMap f l = none := by
  intro l
  induction l with
  | nil => intro a ha; exact absurd ha (List.not_mem_nil a)
  | cons b l ih =>
    intro a ha hfa
    rcases List.mem_cons.1 ha with h | h
    · simp [optMap, ← h, hfa]
    · simp only [optMap]
      cases f b with
      | none => rfl
      | some c => simp [ih a h hfa]

theorem filterMap_sublist_map {α β : Type} (f : α → Option β) (g : α → β)
    (h : ∀ a b, f a = some b → b = g a) :
    ∀ l : List α, List.Sublist (l.filterMap f) (l.map g) := by
  intro l
  induction l with
  | nil => simp
  | cons a l ih =>
    cases hfa : f a with
    | none => simpa [List.filterMap_cons, hfa] using ih.cons (g a)
    | some b =>
      rw [List.filterMap_cons, hfa, List.map_cons, h a b hfa]
      exact ih.cons₂ (g a)

theorem addL_zerosL {n : ℕ} : ∀ d : List (ℚ × ℚ), d.length = n →
    addL (zerosL n) d = d := by
  induction n with
  | zero => intro d hd; simp [List.length_eq_zero.1 hd, addL]
  | succ n ih =>
    intro d hd
    cases d with
    | nil => simp at hd
    | cons p d =>
      simp only [List.length_cons, Nat.succ.injEq] at hd
      simp only [zerosL, List.replicate, addL, List.zipWith_cons_cons]
      refine congrArg₂ _ ?_ (ih d hd)
      simp [addPt]

theorem map_divPt_one (kps : List (ℚ × ℚ)) (s : ℚ) :
    kps.map (divPt (s ^ 0)) = kps := by
  have h : divPt (s ^ 0) = id := by
    funext p
    simp [divPt]
  rw [h, List.map_id]

theorem rowKeep_eq_some (I J : Frame) (t : ℚ) (excl : ℤ)
    (r : (ℚ × ℚ) × (ℚ × ℚ)) (q : ℚ × ℚ)
    (h : rowKeep I J t excl r = some q) : q = roundPt r.2 := by
  simp only [rowKeep] at h
  split at h
  · exact absurd h (by simp)
  · split at h
    · exact absurd h (by simp)
    · simp only [Option.some.injEq] at h
      simp [← h, roundPt]

theorem map_roundPt_zip (kp flow : List (ℚ × ℚ)) :
    List.map (fun r : (ℚ × ℚ) × (ℚ × ℚ) => roundPt r.2)
        (List.zip kp (List.zipWith addPt kp flow))
      = List.zipWith (fun p v => roundPt (addPt p v)) kp flow := by
  induction kp generalizing flow with
  | nil => simp
  | cons p kp ih =>
    cases flow with
    | nil => simp
    | cons v flow => simp [ih]

theorem trackStep_sublist (I J : Frame) (t : ℚ) (excl : ℤ)
    (optflow : Frame → Frame → List (ℚ × ℚ) → Option (List (ℚ × ℚ)))
    (kp kp' : List (ℚ × ℚ))
    (h : trackStep I J t excl optflow kp = some kp') :
    kp'.length ≤ kp.length ∧
      List.Sublist kp' (candidates optflow I J kp) := by
  simp only [trackStep] at h
  cases hflow : optflow I J kp with
  | none => rw [hflow] at h; exact absurd h (by simp)
  | some flow =>
    rw [hflow] at h
    simp only [Option.some.injEq] at h
    subst h
    constructor
    · calc (List.filterMap (rowKeep I J t excl)
            (List.zip kp (addL kp flow))).length
          ≤ (List.zip kp (addL kp flow)).length := List.length_filterMap_le _ _
        _ ≤ kp.length := by simp [List.length_zip]
    · have hsub := filterMap_sublist_map (rowKeep I J t excl)
        (fun r => roundPt r.2) (fun a b hb => rowKeep_eq_some I J t excl a b hb)
        (List.zip kp (addL kp flow))
      rw [addL] at hsub
      rw [map_roundPt_zip] at hsub
      simpa [candidates, hflow] using hsub

theorem trackStep_ints (I J : Frame) (t : ℚ) (excl : ℤ)
    (optflow : Frame → Frame → List (ℚ × ℚ) → Option (List (ℚ × ℚ)))
    (kp kp' : List (ℚ × ℚ))
    (h : trackStep I J t excl optflow kp = some kp') :
    ∀ p ∈ kp', ∃ a b : ℤ, p = ((a : ℚ), (b : ℚ)) := by
  simp only [trackStep] at h
  cases hflow : optflow I J kp with
  | none => rw [hflow] at h; exact absurd h (by simp)
  | some flow =>
    rw [hflow] at h
    simp only [Option.some.injEq] at h
    subst h
    intro p hp
    rcases List.mem_filterMap.1 hp with ⟨r, _, hr⟩
    exact ⟨pyround r.2.1, pyround r.2.2, rowKeep_eq_some I J t excl r p hr⟩

theorem trackGo_shape (t : ℚ) (excl : ℤ)
    (optflow : Frame → Frame → List (ℚ × ℚ) → Option (List (ℚ × ℚ))) :
    ∀ fs : List Frame, ∀ kp ts, trackGo t excl optflow kp fs = some ts →
      ∃ ts2, ts = kp :: ts2 := by
  intro fs kp ts h
  match fs with
  | [] =>
    simp only [trackGo, Option.some.injEq] at h
    exact ⟨[], h.symm⟩
  | [f] =>
    simp only [trackGo, Option.some.injEq] at h
    exact ⟨[], h.symm⟩
  | I :: J :: rest =>
    simp only [trackGo] at h
    split at h
    · exact absurd h (by simp)
    · split at h
      · exact absurd h (by simp)
      · simp only [Option.some.injEq] at h
        exact ⟨_, h.symm⟩

theorem trackGo_mono (t : ℚ) (excl : ℤ)
    (optflow : Frame → Frame → List (ℚ × ℚ) → Option (List (ℚ × ℚ))) :
    ∀ fs : List Frame, ∀ kp ts, trackGo t excl optflow kp fs = some ts →
      ∀ i : ℕ, i + 1 < ts.length →
        ((ts.getD (i + 1) []).length ≤ (ts.getD i []).length ∧
          List.Sublist (ts.getD (i + 1) [])
            (candidates optflow (fs.getD i emptyFrame)
              (fs.getD (i + 1) emptyFrame) (ts.getD i []))) := by
  intro fs
  induction fs with
  | nil =>
    intro kp ts h i hi
    simp only [trackGo, Option.some.injEq] at h
    rw [← h] at hi
    simp at hi
  | cons I fs' ih =>
    intro kp ts h i hi
    cases fs' with
    | nil =>
      simp only [trackGo, Option.some.injEq] at h
      rw [← h] at hi
      simp at hi
    | cons J rest =>
      simp only [trackGo] at h
      split at h
      next hstep => exact absurd h (by simp)
      next kp2 hstep =>
        split at h
        next hrest => exact absurd h (by simp)
        next ts2 hrest =>
          simp only [Option.some.injEq] at h
          subst h
          cases i with
          | zero =>
            rcases trackGo_shape t excl optflow (J :: rest) kp2 ts2 hrest with
              ⟨ts3, hts3⟩
            subst hts3
            simpa using trackStep_sublist I J t excl optflow kp kp2 hstep
          | succ i =>
            have hi' : i + 1 < ts2.length := by
              simpa using hi
            simpa using ih kp2 ts2 hrest i hi'

theorem trackGo_ints (t : ℚ) (excl : ℤ)
    (optflow : Frame → Frame → List (ℚ × ℚ) → Option (List (ℚ × ℚ))) :
    ∀ fs : List Frame, ∀ kp ts, trackGo t excl optflow kp fs = some ts →
      ∀ l ∈ ts.tail, ∀ p ∈ l, ∃ a b : ℤ, p = ((a : ℚ), (b : ℚ)) := by
  intro fs
  induction fs with
  | nil =>
    intro kp ts h l hl
    simp only [trackGo, Option.some.injEq] at h
    rw [← h] at hl
    simp at hl
  | cons I fs' ih =>
    intro kp ts h l hl
    cases fs' with
    | nil =>
      simp only [trackGo, Option.some.injEq] at h
      rw [← h] at hl
      simp at hl
    | cons J rest =>
      simp only [trackGo] at h
      split at h
      next hstep => exact absurd h (by simp)
      next kp2 hstep =>
        split at h
        next hrest => exact absurd h (by simp)
        next ts2 hrest =>
          simp only [Option.some.injEq] at h
          subst h
          simp only [List.tail_cons] at hl
          rcases trackGo_shape t excl optflow (J :: rest) kp2 ts2 hrest with
            ⟨ts3, hts3⟩
          subst hts3
          rcases List.mem_cons.1 hl with h1 | h1
          · subst h1
            exact trackStep_ints I J t excl optflow kp l hstep
          · exact ih kp2 (kp2 :: ts3) hrest l (by simpa using h1)

theorem pyrLoop_eq_claim (pyr : Frame → ℕ → Frame) (img1 img2 : Frame)
    (kps : List (ℚ × ℚ)) (ws K : ℕ) (s : ℚ) :
    ∀ L : ℕ, ∀ g d0 : List (ℚ × ℚ),
      (pyrLoop pyr img1 img2 kps ws K s ((List.range (L + 1)).reverse)
          (g, d0)).map (fun gd => addL gd.1 gd.2)
        = pyramidClaimRec pyr img1 img2 kps ws K s L g := by
  intro L
  induction L with
  | zero =>
    intro g d0
    have hr : (List.range (0 + 1)).reverse = [0] := rfl
    rw [hr]
    cases hit : iterative_lucas_kanade (pyr img1 0) (pyr img2 0)
        (kps.map (divPt (s ^ 0))) ws K g with
    | none =>
      simp only [pyrLoop, pyramidClaimRec, hit, Option.map_none']
    | some d =>
      simp only [pyrLoop, pyramidClaimRec, hit, Option.map_some',
        Option.some.injEq]
      norm_num
  | succ L ih =>
    intro g d0
    rw [List.range_succ, List.reverse_append, List.reverse_singleton,
      List.singleton_append]
    cases hit : iterative_lucas_kanade (pyr img1 (L + 1)) (pyr img2 (L + 1))
        (kps.map (divPt (s ^ (L + 1)))) ws K g with
    | none =>
      simp only [pyrLoop, pyramidClaimRec, hit, Option.map_none']
    | some d =>
      simp only [pyrLoop, pyramidClaimRec, hit]
      rw [← ih (smulL s (addL g d)) d]
      norm_num

theorem lkClaimIter_eq_iterate (img2 : Frame) (wr : ℕ) (A Ax Ay : List ℚ)
    (Ginv : (ℚ × ℚ) × (ℚ × ℚ)) (kp gv : ℚ × ℚ) :
    ∀ k : ℕ, lkClaimIter img2 wr A Ax Ay Ginv kp gv k
      = (lkStep img2 wr A Ax Ay Ginv kp.1 kp.2 gv.1 gv.2)^[k] (0, 0) := by
  intro k
  induction k with
  | zero => rfl
  | succ k ih =>
    rw [Function.iterate_succ_apply', ← ih]
    simp only [lkClaimIter, lkStep, addPt]

theorem lkOne_eq_claim (img1 img2 : Frame) (ws K : ℕ)
    (r : (ℚ × ℚ) × (ℚ × ℚ)) (h : lkGdet img1 ws r.1 ≠ 0) :
    lkOne img1 img2 ws K r = some (lkClaimOne img1 img2 ws K r) := by
  simp only [lkGdet, lkG] at h
  simp only [lkOne, lkClaimOne, lkG, lkGdet, inv2, lkClaimIter_eq_iterate]
  rw [if_neg h]

theorem iterative_length (img1 img2 : Frame) (kps g : List (ℚ × ℚ))
    (ws K : ℕ) (l : List (ℚ × ℚ))
    (h : iterative_lucas_kanade img1 img2 kps ws K g = some l) :
    l.length = min kps.length g.length := by
  simp only [iterative_lucas_kanade] at h
  split at h
  · rw [optMap_length _ _ _ h, List.length_zip]
  · exact absurd h (by simp)

theorem pyramid_level0 (pyr : Frame → ℕ → Frame) (img1 img2 : Frame)
    (kps : List (ℚ × ℚ)) (ws K : ℕ) (s : ℚ)
    (h1 : pyr img1 0 = img1) (h2 : pyr img2 0 = img2) :
    pyramid_lucas_kanade pyr img1 img2 kps ws K 0 s
      = iterative_lucas_kanade img1 img2 kps ws K (zerosL kps.length) := by
  rw [pyramid_lucas_kanade, pyrLoop_eq_claim]
  simp only [pyramidClaimRec, h1, h2, map_divPt_one]
  cases hit : iterative_lucas_kanade img1 img2 kps ws K
      (zerosL kps.length) with
  | none => simp
  | some d =>
    have hd : d.length = kps.length := by
      rw [iterative_length img1 img2 kps (zerosL kps.length) ws K d hit]
      simp [zerosL]
    simp [addL_zerosL d hd]

theorem errDrops_false_of_var (p1 p2 : List ℚ) (t : ℚ)
    (h : listVar p1 = 0 ∨ listVar p2 = 0) : errDrops p1 p2 t = false := by
  simp only [errDrops, if_pos h]

theorem lkOne_eq_none (img1 img2 : Frame) (ws K : ℕ)
    (r : (ℚ × ℚ) × (ℚ × ℚ)) (h : lkGdet img1 ws r.1 = 0) :
    lkOne img1 img2 ws K r = none := by
  simp only [lkGdet, lkG] at h
  simp only [lkOne, inv2]
  rw [if_pos h]

/-! ### Claim theorems -/

/-- Claim C1.  `lucas_kanade` does round each keypoint, form
`A = [Ix | Iy]`, `b = -It`, and solve `(AᵀA)⁻¹ Aᵀ b` — but it appends
the raw solution vector of that system, whose components are
`(vx, vy) = (Δcol, Δrow)`, NOT the claimed `(Δrow, Δcol)` order (the
source's own loop comment says it appends `[vy, vx]`; the code appends
the solution unswapped, unlike `iterative_lucas_kanade` which does
swap).  On `frameC1a`/`frameC1b` with keypoint `(2, 2)` the exact
least-squares solution is `vx = 0`, `vy = -1/2`: the code returns
`(0, -1/2)`, whereas the claimed `(Δy, Δx)` order would be
`(-1/2, 0)`. -/
theorem claim1_lucas_kanade_emits_solver_order :
    lucas_kanade frameC1a frameC1b [(2, 2)] 3 = some [(0, -(1/2))] ∧
      lucas_kanade frameC1a frameC1b [(2, 2)] 3 ≠ some [(-(1/2), 0)] := by
  constructor
  · decide
  · decide

/-- Claim C2.  `IoU` as written never clamps and never returns a score:
`np.amax(xB - xA, 0)` passes `0` as the `axis` argument on a
0-dimensional operand, which raises AxisError on every call — including
all three scenario inputs of the claim.  The clamped computation the
claim (and the source's comments) describe, `IoU_clamped`, does produce
the three claimed scores. -/
theorem claim2_IoU_raises_axis_error :
    (IoU (1, 1, 4, 4) (1, 1, 4, 4) = none ∧
      IoU (0, 0, 2, 2) (10, 10, 2, 2) = none ∧
      IoU (0, 0, 4, 4) (2, 2, 4, 4) = none) ∧
    (IoU_clamped (1, 1, 4, 4) (1, 1, 4, 4) = 1 ∧
      IoU_clamped (0, 0, 2, 2) (10, 10, 2, 2) = 0 ∧
      IoU_clamped (0, 0, 4, 4) (2, 2, 4, 4) = 4 / 28) := by
  refine ⟨⟨rfl, rfl, rfl⟩, ⟨by decide, by decide, by decide⟩⟩

/-- Counterexample to claim C3: on two constant frames the keypoint
`(3, 3)` has constant (zero-variance) 3×3 patches in both frames, so by
the claim it must be dropped by the error-threshold check — but the
tracker keeps it: the error is NaN and `NaN > error_thresh` is False in
IEEE arithmetic, so it survives into the next trajectory entry. -/
theorem claim3_counterexample :
    listVar (patchAt constFrame 3 3) = 0 ∧
      track_features [constFrame, constFrame] [(3, 3)] (3/2) zeroFlow 1
        = some [[(3, 3)], [(3, 3)]] := by
  constructor
  · decide
  · decide

/-- Claim C3 as amended: a tracked keypoint whose current or next 3×3
patch is constant (zero variance) yields a NaN patch error, and since
`NaN > error_thresh` is false the error-threshold check does NOT drop
it: if it passes the border check it is kept (it does survive into the
next trajectory entry). -/
theorem claim3_amended (I J : Frame) (t : ℚ) (excl : ℤ)
    (r : (ℚ × ℚ) × (ℚ × ℚ))
    (hvar : listVar (patchAt I (pyround r.1.1) (pyround r.1.2)) = 0 ∨
      listVar (patchAt J (pyround r.2.1) (pyround r.2.2)) = 0)
    (hin : ¬(pyround r.2.1 > (J.h : ℤ) - excl - 1 ∨ pyround r.2.1 < excl ∨
      pyround r.2.2 > (J.w : ℤ) - excl - 1 ∨ pyround r.2.2 < excl)) :
    rowKeep I J t excl r = some (roundPt r.2) := by
  simp only [rowKeep]
  rw [if_neg hin, errDrops_false_of_var _ _ _ hvar]
  rfl

/-- Witness for `claim3_amended` at a concrete input: constant frames,
keypoint `(3, 3)`, threshold `3/2`, border margin 1. -/
theorem claim3_amended_witness :
    (listVar (patchAt constFrame 3 3) = 0 ∨
      listVar (patchAt constFrame 3 3) = 0) ∧
      rowKeep constFrame constFrame (3/2) 1 ((3, 3), (3, 3))
        = some (roundPt (3, 3)) :=
  ⟨by decide,
    claim3_amended constFrame constFrame (3/2) 1 ((3, 3), (3, 3))
      (by decide) (by decide)⟩

/-- Counterexample to claim C5: on 7×7 frames with
`exclude_border = 2`, the keypoint's rounded next position `(2, 3)` has
row exactly `exclude_border` (distance 2 from the top edge row), which
the claim says must be dropped — but the tracker keeps it (the border
test drops only coordinates strictly below `exclude_border` or strictly
above `dim - exclude_border - 1`). -/
theorem claim5_counterexample :
    track_features [constFrame, constFrame] [(2, 3)] (3/2) zeroFlow 2
      = some [[(2, 3)], [(2, 3)]] := by
  decide

/-- Claim C5 as amended: in `track_features`, a keypoint whose rounded
next-position row or column is strictly within `exclude_border` of a
frame edge (row `< excl` or `> h - excl - 1`, column `< excl` or
`> w - excl - 1`) is dropped; a keypoint whose rounded next position is
exactly at distance `exclude_border` from every edge (all coordinates
in the closed band `[excl, dim - excl - 1]`) passes the border check
and is kept whenever the error check passes.  For kept keypoints with
`excl ≥ 1` the subsequent 3×3 patch extraction stays in bounds. -/
theorem claim5_amended (I J : Frame) (t : ℚ) (excl : ℤ)
    (r : (ℚ × ℚ) × (ℚ × ℚ)) :
    ((pyround r.2.1 < excl ∨ pyround r.2.1 > (J.h : ℤ) - excl - 1 ∨
      pyround r.2.2 < excl ∨ pyround r.2.2 > (J.w : ℤ) - excl - 1) →
      rowKeep I J t excl r = none) ∧
    ((excl ≤ pyround r.2.1 ∧ pyround r.2.1 ≤ (J.h : ℤ) - excl - 1 ∧
      excl ≤ pyround r.2.2 ∧ pyround r.2.2 ≤ (J.w : ℤ) - excl - 1 ∧
      errDrops (patchAt I (pyround r.1.1) (pyround r.1.2))
        (patchAt J (pyround r.2.1) (pyround r.2.2)) t = false) →
      rowKeep I J t excl r = some (roundPt r.2)) := by
  constructor
  · intro hout
    simp only [rowKeep]
    rw [if_pos]
    rcases hout with h | h | h | h
    · exact Or.inr (Or.inl h)
    · exact Or.inl h
    · exact Or.inr (Or.inr (Or.inr h))
    · exact Or.inr (Or.inr (Or.inl h))
  · intro hin
    simp only [rowKeep]
    rw [if_neg (by omega), hin.2.2.2.2]
    rfl

/-- Witness for `claim5_amended` at concrete inputs: on a 7×7 frame
with `exclude_border = 2`, rounded next row 1 is dropped and rounded
next position `(2, 3)` (row exactly at distance 2) is kept. -/
theorem claim5_amended_witness :
    rowKeep constFrame constFrame (3/2) 2 ((1, 3), (1, 3)) = none ∧
      rowKeep constFrame constFrame (3/2) 2 ((2, 3), (2, 3))
        = some (roundPt (2, 3)) :=
  ⟨(claim5_amended constFrame constFrame (3/2) 2 ((1, 3), (1, 3))).1
      (by decide),
    (claim5_amended constFrame constFrame (3/2) 2 ((2, 3), (2, 3))).2
      (by decide)⟩

/-- Counterexample to claim C4: on `frameC4`, keypoint `(25, 25)` sits
in a flat region (`G = 0`, singular) while keypoint `(2, 2)` is
textured and succeeds on its own — yet the two-keypoint call returns
nothing at all: `np.linalg.inv` raises LinAlgError and the whole batch
is aborted, so the singular keypoint's failure destroys the other
keypoint's result instead of being surfaced per keypoint. -/
theorem claim4_counterexample :
    iterative_lucas_kanade frameC4 frameC4 [(2, 2), (25, 25)] 3 1
        [(0, 0), (0, 0)] = none ∧
      iterative_lucas_kanade frameC4 frameC4 [(2, 2)] 3 1 [(0, 0)]
        = some [(0, 0)] ∧
      lkGdet frameC4 3 (25, 25) = 0 ∧ lkGdet frameC4 3 (2, 2) ≠ 0 := by
  refine ⟨by decide, by decide, by decide, by decide⟩

/-- Claim C4 as amended: if any keypoint of the batch has a singular
`G`, the inversion failure is NOT contained to that keypoint — the
LinAlgError aborts the entire `iterative_lucas_kanade` call and no
keypoint of the batch receives a flow vector. -/
theorem claim4_amended (img1 img2 : Frame) (kps g : List (ℚ × ℚ))
    (ws K : ℕ) (r : (ℚ × ℚ) × (ℚ × ℚ)) (hr : r ∈ List.zip kps g)
    (hdet : lkGdet img1 ws r.1 = 0) :
    iterative_lucas_kanade img1 img2 kps ws K g = none := by
  simp only [iterative_lucas_kanade]
  split
  · exact optMap_eq_none _ _ r hr (lkOne_eq_none img1 img2 ws K r hdet)
  · rfl

/-- Witness for `claim4_amended` at the concrete `frameC4` batch. -/
theorem claim4_amended_witness :
    ((25 : ℚ), (25 : ℚ)) ∈ [(((2 : ℚ), (2 : ℚ)), ((0 : ℚ), (0 : ℚ))),
        (((25 : ℚ), (25 : ℚ)), ((0 : ℚ), (0 : ℚ)))].map Prod.fst ∧
      iterative_lucas_kanade frameC4 frameC4 [(2, 2), (25, 25)] 3 1
        [(0, 0), (0, 0)] = none :=
  ⟨by decide,
    claim4_amended frameC4 frameC4 [(2, 2), (25, 25)] [(0, 0), (0, 0)] 3 1
      ((25, 25), (0, 0)) (by decide) (by decide)⟩

/-- Claim C6: with `level = 0` (no pyramid), `pyramid_lucas_kanade`
returns exactly the flow vectors of a direct `iterative_lucas_kanade`
call on the original frames with a zero initial guess and the same
window size and iteration count.  The hypotheses are the external
pyramid builder's contract: level 0 of the pyramid is the original
image (true of skimage's `pyramid_gaussian` on float frames). -/
theorem claim6_pyramid_level0 (pyr : Frame → ℕ → Frame)
    (img1 img2 : Frame) (kps : List (ℚ × ℚ)) (ws K : ℕ) (s : ℚ)
    (h1 : pyr img1 0 = img1) (h2 : pyr img2 0 = img2) :
    pyramid_lucas_kanade pyr img1 img2 kps ws K 0 s
      = iterative_lucas_kanade img1 img2 kps ws K (zerosL kps.length) :=
  pyramid_level0 pyr img1 img2 kps ws K s h1 h2

/-- Witness for `claim6_pyramid_level0` at a concrete input: the
identity pyramid builder, the textured 5×5 frames, one keypoint. -/
theorem claim6_witness :
    pyrId frameC1a 0 = frameC1a ∧
      pyramid_lucas_kanade pyrId frameC1a frameC1b [(2, 2)] 3 2 0 2
        = iterative_lucas_kanade frameC1a frameC1b [(2, 2)] 3 2 (zerosL 1) :=
  ⟨rfl, claim6_pyramid_level0 pyrId frameC1a frameC1b [(2, 2)] 3 2 2 rfl rfl⟩

/-- Claim C7: `pyramid_lucas_kanade` computes exactly the coarse-to-fine
recurrence the spec describes — `g` starts at zero per keypoint; at
each level `ℓ` from `level` down to `0` the keypoints are divided by
`scale^ℓ` and the iterative refiner runs with guess `g` giving `d`; for
`ℓ > 0` the guess becomes `scale·(g + d)`; at `ℓ = 0` the result is
`g + d`. -/
theorem claim7_pyramid_recurrence (pyr : Frame → ℕ → Frame)
    (img1 img2 : Frame) (kps : List (ℚ × ℚ)) (ws K level : ℕ) (s : ℚ) :
    pyramid_lucas_kanade pyr img1 img2 kps ws K level s
      = pyramidClaimRec pyr img1 img2 kps ws K s level (zerosL kps.length) := by
  rw [pyramid_lucas_kanade, pyrLoop_eq_claim]

/-- Claim C8: under the stated contract (odd window size, invertible
`G` for every keypoint of the batch), `iterative_lucas_kanade` computes
per keypoint exactly the described refinement: `G` and `G⁻¹` once from
the reference frame around the rounded keypoint, then `K` iterations
`v ← v + G⁻¹·b(v)` sampling the target window at
`rounded(keypoint + g + v)` with residual `Ik = A - B` and
`b = (Σ Ik·Ax, Σ Ik·Ay)`, finally emitting `v` as `(Δy, Δx)` — one
result per keypoint, in input order. -/
theorem claim8_iterative_refiner (img1 img2 : Frame)
    (kps g : List (ℚ × ℚ)) (ws K : ℕ) (hodd : ws % 2 = 1)
    (hdet : ∀ r ∈ List.zip kps g, lkGdet img1 ws r.1 ≠ 0) :
    iterative_lucas_kanade img1 img2 kps ws K g
      = some ((List.zip kps g).map (lkClaimOne img1 img2 ws K)) := by
  simp only [iterative_lucas_kanade, if_pos hodd]
  exact optMap_eq_some_map _ _ _
    (fun r hr => lkOne_eq_claim img1 img2 ws K r (hdet r hr))

/-- Witness for `claim8_iterative_refiner` at a concrete input: the
textured 5×5 frame pair (`It = i/10`), keypoint `(2, 2)`, window 3, one
iteration, zero guess. -/
theorem claim8_witness :
    (3 % 2 = 1) ∧
      (∀ r ∈ List.zip [((2 : ℚ), (2 : ℚ))] [((0 : ℚ), (0 : ℚ))],
        lkGdet frameC1a 3 r.1 ≠ 0) ∧
      iterative_lucas_kanade frameC1a frameC8b [(2, 2)] 3 1 [(0, 0)]
        = some ((List.zip [((2 : ℚ), (2 : ℚ))] [((0 : ℚ), (0 : ℚ))]).map
            (lkClaimOne frameC1a frameC8b 3 1)) :=
  ⟨by decide, by decide,
    claim8_iterative_refiner frameC1a frameC8b [(2, 2)] [(0, 0)] 3 1
      (by decide) (by decide)⟩

/-- Claim C9: for every frame sequence, initial keypoint set and
pluggable flow function, consecutive entries of the returned trajectory
shrink monotonically (`len(trajs[i+1]) ≤ len(trajs[i])`), and
`trajs[i+1]` is an in-order subsequence of the rounded candidate next
positions of `trajs[i]` — i.e. it preserves the relative order of the
surviving keypoints. -/
theorem claim9_monotone_shrinkage (frames : List Frame)
    (kps : List (ℚ × ℚ)) (t : ℚ)
    (optflow : Frame → Frame → List (ℚ × ℚ) → Option (List (ℚ × ℚ)))
    (excl : ℤ) (trajs : List (List (ℚ × ℚ)))
    (h : track_features frames kps t optflow excl = some trajs)
    (i : ℕ) (hi : i + 1 < trajs.length) :
    (trajs.getD (i + 1) []).length ≤ (trajs.getD i []).length ∧
      List.Sublist (trajs.getD (i + 1) [])
        (candidates optflow (frames.getD i emptyFrame)
          (frames.getD (i + 1) emptyFrame) (trajs.getD i [])) :=
  trackGo_mono t excl optflow frames kps trajs h i hi

/-- Witness for `claim9_monotone_shrinkage` at a concrete run: two
constant frames, one keypoint, zero flow. -/
theorem claim9_witness :
    (0 + 1 <
      ([[((2 : ℚ), (3 : ℚ))], [((2 : ℚ), (3 : ℚ))]] :
        List (List (ℚ × ℚ))).length) ∧
    (((([[((2 : ℚ), (3 : ℚ))], [((2 : ℚ), (3 : ℚ))]] :
        List (List (ℚ × ℚ))).getD 1 []).length ≤
      (([[((2 : ℚ), (3 : ℚ))], [((2 : ℚ), (3 : ℚ))]] :
        List (List (ℚ × ℚ))).getD 0 []).length) ∧
      List.Sublist
        (([[((2 : ℚ), (3 : ℚ))], [((2 : ℚ), (3 : ℚ))]] :
          List (List (ℚ × ℚ))).getD 1 [])
        (candidates zeroFlow
          ([constFrame, constFrame].getD 0 emptyFrame)
          ([constFrame, constFrame].getD 1 emptyFrame)
          (([[((2 : ℚ), (3 : ℚ))], [((2 : ℚ), (3 : ℚ))]] :
            List (List (ℚ × ℚ))).getD 0 []))) :=
  ⟨by decide,
    claim9_monotone_shrinkage [constFrame, constFrame] [(2, 3)] (3/2)
      zeroFlow 2 [[(2, 3)], [(2, 3)]] (by decide) 0 (by decide)⟩

/-- Claim C10: the first trajectory entry is the input keypoint set,
unchanged (possibly sub-pixel); every entry after the first stores only
rounded integer positions — each of its points is a pair of integers,
so the sub-pixel precision of the flow estimate is discarded at every
frame transition. -/
theorem claim10_rounded_positions (frames : List Frame)
    (kps : List (ℚ × ℚ)) (t : ℚ)
    (optflow : Frame → Frame → List (ℚ × ℚ) → Option (List (ℚ × ℚ)))
    (excl : ℤ) (trajs : List (List (ℚ × ℚ)))
    (h : track_features frames kps t optflow excl = some trajs) :
    trajs.getD 0 [] = kps ∧
      ∀ i : ℕ, 1 ≤ i → ∀ p ∈ trajs.getD i [],
        ∃ a b : ℤ, p = ((a : ℚ), (b : ℚ)) := by
  have h' : trackGo t excl optflow kps frames = some trajs := h
  rcases trackGo_shape t excl optflow frames kps trajs h' with ⟨ts2, hts⟩
  subst hts
  refine ⟨rfl, ?_⟩
  intro i hi p hp
  cases i with
  | zero => exact absurd hi (by omega)
  | succ i =>
    rw [List.getD_cons_succ] at hp
    by_cases hlen : i < ts2.length
    · have hmem : ts2.getD i [] ∈ ts2 := by
        rw [List.getD_eq_getElem ts2 [] hlen]
        exact List.getElem_mem hlen
      exact trackGo_ints t excl optflow frames kps (kps :: ts2) h'
        (ts2.getD i []) (by simpa using hmem) p hp
    · rw [List.getD_eq_default] at hp
      · exact absurd hp (List.not_mem_nil p)
      · omega

/-- Witness for `claim10_rounded_positions` at a concrete run with a
sub-pixel initial keypoint `(21/4, 16/3)`: the second trajectory entry
stores the rounded `(5, 5)`. -/
theorem claim10_witness :
    (([[((21 : ℚ)/4, (16 : ℚ)/3)], [((5 : ℚ), (5 : ℚ))]] :
        List (List (ℚ × ℚ))).getD 0 [] = [((21 : ℚ)/4, (16 : ℚ)/3)]) ∧
      ∃ a b : ℤ, ((5 : ℚ), (5 : ℚ)) = ((a : ℚ), (b : ℚ)) :=
  ⟨(claim10_rounded_positions [constFrame, constFrame] [(21/4, 16/3)]
      (3/2) zeroFlow 1 [[(21/4, 16/3)], [(5, 5)]] (by decide)).1,
    (claim10_rounded_positions [constFrame, constFrame] [(21/4, 16/3)]
      (3/2) zeroFlow 1 [[(21/4, 16/3)], [(5, 5)]] (by decide)).2
      1 (by omega) (5, 5) (by decide)⟩
